import Mathlib

/-!
# Verification of the Chat-Export-Viewer core against its specification

This development shallowly embeds the core algorithms of the repository:

* the WhatsApp log parser (`TIMESTAMP_PATTERNS`, `parseTimestamp`,
  `tryParseMessageLine`, `parseWhatsAppChat` and its line classifier),
* the media correlator (`matchMediaToMessages` and its helpers),
* the chunked persistence layer (`saveMessages`, `deleteChat`),
* the intake validation (`validateTextFile`, `validateFolder`, `validateZipFile`),

and proves (or refutes) the frozen claims about them.

Conventions of the embedding:

* Strings are processed as `List Char` (`Chars`); every regular expression of
  the source is compiled by hand into an executable structural matcher with
  the exact JavaScript semantics of that pattern (greedy quantifiers with
  the backtracking behaviour the concrete pattern exhibits).  Each matcher
  carries a comment naming the source pattern it implements.
* JavaScript `Date` construction (`new Date(y, m, d, ...).getTime()`) is
  time-zone dependent; the embedding keeps the date *fields* the code
  computes and abstracts the final field-to-milliseconds conversion as an
  explicit function parameter (`mkTime` / `mkDateMs` / `dayOf`).  No claim
  depends on the concrete conversion; theorems quantify over it.
* Case folding is modelled for ASCII (all inputs of the claims are ASCII).
-/

namespace ChatExportViewer

abbrev Chars := List Char

/-- JavaScript `\s` / `String.trim` whitespace, restricted to the characters
that can occur in the ASCII inputs of the claims (space, tab, CR, LF, VT, FF,
NBSP). -/
def isWsChar (c : Char) : Bool :=
  c = ' ' || c = '\t' || c = '\r' || c = '\n' || c = '\x0b' || c = '\x0c' || c = ' '

/-- Characters matched by JavaScript `.` (anything but a line terminator). -/
def isDotChar (c : Char) : Bool :=
  !(c = '\n' || c = '\r' || c = ' ' || c = ' ')

def isDigitChar (c : Char) : Bool :=
  '0' ≤ c && c ≤ '9'

/-- ASCII lower-casing, the fragment of `toLowerCase` exercised here. -/
def toLowerChar (c : Char) : Char :=
  if 'A' ≤ c && c ≤ 'Z' then Char.ofNat (c.toNat + 32) else c

def toLowerL (l : Chars) : Chars := l.map toLowerChar

def toLowerS (s : String) : String := String.mk (toLowerL s.data)

/-- `String.prototype.trim`. -/
def trimL (l : Chars) : Chars :=
  ((l.dropWhile isWsChar).reverse.dropWhile isWsChar).reverse

def trimS (s : String) : String := String.mk (trimL s.data)

/-- Numeric value of a digit capture (`parseInt` on a `\d+` capture). -/
def digitsVal (l : Chars) : Nat :=
  l.foldl (fun acc c => 10 * acc + (c.toNat - 48)) 0

/-- Boolean prefix test on character lists. -/
def isPrefixL : Chars → Chars → Bool
  | [], _ => true
  | _ :: _, [] => false
  | a :: as, b :: bs => a = b && isPrefixL as bs

/-- Case-insensitive prefix test (ASCII folding), for `/i` literals. -/
def isPrefixCI (pat l : Chars) : Bool :=
  isPrefixL (toLowerL pat) (toLowerL l)

/-- Boolean suffix test on character lists. -/
def isSuffixL (pat l : Chars) : Bool :=
  isPrefixL pat.reverse l.reverse

/-- `text.split(sep)` (JavaScript `String.prototype.split` with a
one-character separator). -/
def splitOnCharL (sep : Char) : Chars → List Chars
  | [] => [[]]
  | c :: rest =>
    match splitOnCharL sep rest with
    | [] => [[]]
    | r :: rs => if c = sep then [] :: r :: rs else (c :: r) :: rs

/-! ## Timestamp grammar (`src/unnamed/part_002`, `TIMESTAMP_PATTERNS`,
`parseTimestamp`, `tryParseMessageLine`)

Each of the four regular expressions is embedded as a structural matcher.
The quantifier semantics used throughout: a greedy `\d{a,b}` followed by a
non-digit requirement succeeds exactly when the maximal digit run at that
position has length in `[a, b]` (backtracking inside the run cannot help
because the character after a shorter run is still a digit), and `\d{k}`
consumes exactly `k` digit characters even when the run is longer. -/

/-- The calendar/clock fields assembled by `parseTimestamp` before they are
passed to `new Date(year, month - 1, day, hour, minute, second)`. -/
structure DateFields where
  day : Nat
  month : Nat
  year : Nat
  hour : Nat
  minute : Nat
  second : Nat
deriving DecidableEq, Repr

/-- Raw captures of one timestamp pattern: the three date numbers, hour,
minute, the optional seconds capture, and for the AM/PM pattern whether the
marker was `PM`/`pm`. -/
structure TsCaptures where
  d1 : Nat
  d2 : Nat
  d3 : Nat
  hour : Nat
  minute : Nat
  second : Option Nat
  isPM : Bool
deriving DecidableEq, Repr

/-- Maximal digit run at the head: `(digits, rest)`. -/
def spanDigits (l : Chars) : Chars × Chars :=
  (l.takeWhile isDigitChar, l.dropWhile isDigitChar)

/-- `(\d{lo,hi})` followed by a non-digit continuation: succeeds iff the
maximal digit run has length in `[lo, hi]`; captures its value. -/
def matchDigitRun (lo hi : Nat) (l : Chars) : Option (Nat × Chars) :=
  let (ds, rest) := spanDigits l
  if lo ≤ ds.length && ds.length ≤ hi then some (digitsVal ds, rest) else none

/-- `\d{k}`: consume exactly `k` digit characters. -/
def matchExactDigits (k : Nat) (l : Chars) : Option (Nat × Chars) :=
  let ds := l.take k
  if ds.length = k && ds.all isDigitChar then some (digitsVal ds, l.drop k) else none

/-- A single literal character. -/
def matchChar (c : Char) (l : Chars) : Option Chars :=
  match l with
  | x :: rest => if x = c then some rest else none
  | [] => none

/-- An optional literal character (`c?`). -/
def matchOptChar (c : Char) (l : Chars) : Chars :=
  match l with
  | x :: rest => if x = c then rest else l
  | [] => l

/-- `\s+`. -/
def matchWsPlus (l : Chars) : Option Chars :=
  let (ws, rest) := (l.takeWhile isWsChar, l.dropWhile isWsChar)
  if ws.length = 0 then none else some rest

/-- `\s*`. -/
def matchWsStar (l : Chars) : Chars := l.dropWhile isWsChar

/-- `(\d{1,2})sep(\d{1,2})sep(\d{2,4})` with a fixed separator. -/
def matchDatePart (sep : Char) (l : Chars) : Option (Nat × Nat × Nat × Chars) := do
  let (d1, r1) ← matchDigitRun 1 2 l
  let r2 ← matchChar sep r1
  let (d2, r3) ← matchDigitRun 1 2 r2
  let r4 ← matchChar sep r3
  let (d3, r5) ← matchDigitRun 2 4 r4
  pure (d1, d2, d3, r5)

/-- `,?\s+`. -/
def matchCommaWs (l : Chars) : Option Chars :=
  matchWsPlus (matchOptChar ',' l)

/-- `(\d{1,2}):(\d{2})`. -/
def matchHourMinute (l : Chars) : Option (Nat × Nat × Chars) := do
  let (h, r1) ← matchDigitRun 1 2 l
  let r2 ← matchChar ':' r1
  let (m, r3) ← matchExactDigits 2 r2
  pure (h, m, r3)

/-- `(?::(\d{2}))?`: optional seconds; consumes nothing when it fails. -/
def matchOptSeconds (l : Chars) : Option Nat × Chars :=
  match l with
  | ':' :: rest =>
    match matchExactDigits 2 rest with
    | some (s, r) => (some s, r)
    | none => (none, l)
  | _ => (none, l)

/-- `\]?\s*-?\s*` (common tail of the bracketed patterns). -/
def matchBracketTail (l : Chars) : Chars :=
  matchWsStar (matchOptChar '-' (matchWsStar (matchOptChar ']' l)))

/-- `TIMESTAMP_PATTERNS[0]` and `[2]`:
`^\[?(\d{1,2})sep(\d{1,2})sep(\d{2,4}),?\s+(\d{1,2}):(\d{2})(?::(\d{2}))?\]?\s*-?\s*`
with `sep` `/` resp. `.`. -/
def matchTs24 (sep : Char) (l : Chars) : Option (TsCaptures × Chars) := do
  let l1 := matchOptChar '[' l
  let (d1, d2, d3, r1) ← matchDatePart sep l1
  let r2 ← matchCommaWs r1
  let (h, m, r3) ← matchHourMinute r2
  let (sec, r4) := matchOptSeconds r3
  pure (⟨d1, d2, d3, h, m, sec, false⟩, matchBracketTail r4)

/-- `TIMESTAMP_PATTERNS[1]`:
`^\[?(\d{1,2})\/(\d{1,2})\/(\d{2,4}),?\s+(\d{1,2}):(\d{2})\s*(AM|PM|am|pm)\]?\s*-?\s*`. -/
def matchTsAmPm (l : Chars) : Option (TsCaptures × Chars) := do
  let l1 := matchOptChar '[' l
  let (d1, d2, d3, r1) ← matchDatePart '/' l1
  let r2 ← matchCommaWs r1
  let (h, m, r3) ← matchHourMinute r2
  let r4 := matchWsStar r3
  let (isPM, r5) ←
    match r4 with
    | 'A' :: 'M' :: rest => some (false, rest)
    | 'P' :: 'M' :: rest => some (true, rest)
    | 'a' :: 'm' :: rest => some (false, rest)
    | 'p' :: 'm' :: rest => some (true, rest)
    | _ => none
  pure (⟨d1, d2, d3, h, m, none, isPM⟩, matchBracketTail r5)

/-- `TIMESTAMP_PATTERNS[3]`:
`^(\d{1,2})\/(\d{1,2})\/(\d{2,4}),?\s+(\d{1,2}):(\d{2})(?::(\d{2}))?\s*-\s*`. -/
def matchTsDashed (l : Chars) : Option (TsCaptures × Chars) := do
  let (d1, d2, d3, r1) ← matchDatePart '/' l
  let r2 ← matchCommaWs r1
  let (h, m, r3) ← matchHourMinute r2
  let (sec, r4) := matchOptSeconds r3
  let r5 := matchWsStar r4
  let r6 ← matchChar '-' r5
  pure (⟨d1, d2, d3, h, m, sec, false⟩, matchWsStar r6)

/-- `parseTimestamp(match, patternIndex)` up to (but not including) the
`new Date(...)` call: hour normalization for the AM/PM pattern, default
seconds for the 24-hour patterns, and the two-digit-year pivot. `amPm` tells
whether `patternIndex === 1`. -/
def parseTimestampFields (amPm : Bool) (c : TsCaptures) : DateFields :=
  let hour :=
    if amPm then
      if c.isPM && c.hour ≠ 12 then c.hour + 12
      else if !c.isPM && c.hour = 12 then 0
      else c.hour
    else c.hour
  let second := if amPm then 0 else c.second.getD 0
  let year := if c.d3 < 100 then (if c.d3 < 50 then c.d3 + 2000 else c.d3 + 1900) else c.d3
  ⟨c.d1, c.d2, year, hour, c.minute, second⟩

/-- `tryParseMessageLine` up to the `Date` conversion: the four patterns are
tried in order and the first structural match wins; the result keeps the
date fields and the unconsumed remainder of the line. -/
def tryParseHeader (line : Chars) : Option (DateFields × Chars) :=
  match matchTs24 '/' line with
  | some (c, rest) => some (parseTimestampFields false c, rest)
  | none =>
    match matchTsAmPm line with
    | some (c, rest) => some (parseTimestampFields true c, rest)
    | none =>
      match matchTs24 '.' line with
      | some (c, rest) => some (parseTimestampFields false c, rest)
      | none =>
        match matchTsDashed line with
        | some (c, rest) => some (parseTimestampFields false c, rest)
        | none => none

/-- `tryParseMessageLine`: `mkTime` abstracts
`new Date(year, month - 1, day, hour, minute, second).getTime()`
(time-zone dependent). -/
def tryParseMessageLine (mkTime : DateFields → Int) (line : Chars) :
    Option (Int × Chars) :=
  (tryParseHeader line).map (fun p => (mkTime p.1, p.2))

/-! ## Line classification (`SYSTEM_MESSAGE_PATTERNS`, `MEDIA_PATTERNS`,
sender split, filename extraction) -/

/-- `^needle...` unanchored at the end: plain prefix test. -/
def startsWithPat (needle : String) (l : Chars) : Bool :=
  isPrefixL needle.data l

/-- Does `needle` occur at some position of `l` such that every character
before it is matched by `.` (auxiliary for `^.+needle`)?  Mirrors the regex
engine scanning positions left to right. -/
def existsNeedlePos (needle : Chars) : Chars → Bool
  | [] => isPrefixL needle []
  | c :: rest => isPrefixL needle (c :: rest) || (isDotChar c && existsNeedlePos needle rest)

/-- `^.+needle` (unanchored at the end). -/
def dotPlusThen (needle : String) (l : Chars) : Bool :=
  match l with
  | [] => false
  | c :: rest => isDotChar c && existsNeedlePos needle.data rest

/-- Like `existsNeedlePos` but the needle must be followed by at least one
`.`-character (auxiliary for `^.+needle.+`). -/
def existsNeedlePosPlus (needle : Chars) : Chars → Bool
  | [] => false
  | c :: rest =>
    (isPrefixL needle (c :: rest) &&
      (match (c :: rest).drop needle.length with
       | d :: _ => isDotChar d
       | [] => false)) ||
    (isDotChar c && existsNeedlePosPlus needle rest)

/-- `^.+needle.+` (unanchored at the end). -/
def dotPlusThenPlus (needle : String) (l : Chars) : Bool :=
  match l with
  | [] => false
  | c :: rest => isDotChar c && existsNeedlePosPlus needle.data rest

/-- `^.+needle$`: the needle is the suffix and everything before it is a
nonempty run of `.`-characters. -/
def dotPlusThenEnd (needle : String) (l : Chars) : Bool :=
  isSuffixL needle.data l &&
    (let a := l.take (l.length - needle.length)
     a.length ≠ 0 && a.all isDotChar)

/-- `isSystemMessage`: the sixteen patterns of `SYSTEM_MESSAGE_PATTERNS`,
in source order. -/
def isSystemMessage (content : Chars) : Bool :=
  startsWithPat "Messages and calls are end-to-end encrypted" content ||
  startsWithPat "You deleted this message" content ||
  startsWithPat "This message was deleted" content ||
  startsWithPat "You created group" content ||
  startsWithPat "You added" content ||
  startsWithPat "You removed" content ||
  startsWithPat "You left" content ||
  dotPlusThen " created group" content ||
  dotPlusThenPlus " added " content ||
  dotPlusThenPlus " removed " content ||
  dotPlusThenEnd " left" content ||
  dotPlusThen " changed the subject" content ||
  dotPlusThen " changed this group\x27s icon" content ||
  dotPlusThen " changed the group description" content ||
  startsWithPat "Security code changed" content ||
  (startsWithPat "Missed " content && dotPlusThen " call" (content.drop 7))

/-- Extension alternation of the parser's filename patterns
(`MEDIA_PATTERNS` last entry and `extractMediaFileName`), in source order. -/
def parserExts : List String :=
  ["jpg", "jpeg", "png", "gif", "webp", "heic", "mp4", "mov", "avi", "mkv",
   "webm", "3gp", "mp3", "ogg", "opus", "wav", "m4a", "aac", "pdf", "doc",
   "docx", "xls", "xlsx", "ppt", "pptx"]

/-- Anchored filename pattern
`^.+\.(jpg|...|pptx)\s*\(file attached\)$` (case-insensitive): the content
splits as `body ++ ws ++ "(file attached)"` where `ws` is the maximal
whitespace suffix before the literal, and `body` ends in `.ext` with a
nonempty newline-free part before the dot.  Returns the capture `body`
(group 1 of `extractMediaFileName`). -/
def matchFilenameAttached (content : Chars) : Option Chars :=
  if isSuffixL "(file attached)".data (toLowerL content) then
    let beforeLit := content.take (content.length - 15)
    let body := (beforeLit.reverse.dropWhile isWsChar).reverse
    let lowBody := toLowerL body
    if parserExts.any (fun e =>
        isSuffixL ('.' :: e.data) lowBody &&
        decide (e.length + 1 < body.length) &&
        (body.take (body.length - (e.length + 1))).all isDotChar) then
      some body
    else none
  else none

/-- `isMediaMessage`: the nine patterns of `MEDIA_PATTERNS`, in source
order (`<Media omitted>` is case-sensitive, the rest carry `/i`). -/
def isMediaMessage (content : Chars) : Bool :=
  content = "<Media omitted>".data ||
  toLowerL content = "image omitted".data ||
  toLowerL content = "video omitted".data ||
  toLowerL content = "audio omitted".data ||
  toLowerL content = "document omitted".data ||
  toLowerL content = "sticker omitted".data ||
  toLowerL content = "gif omitted".data ||
  toLowerL content = "(file attached)".data ||
  (matchFilenameAttached content).isSome

/-- `extractMediaFileName`: group 1 of the filename pattern, trimmed. -/
def extractMediaFileName (content : Chars) : Option String :=
  (matchFilenameAttached content).map (fun body => String.mk (trimL body))

inductive MsgType | text | media | system
deriving DecidableEq, Repr

inductive MediaType | image | video | audio | document
deriving DecidableEq, Repr

/-- `getMediaTypeFromFilename` (parser variant, `src/unnamed/part_002`):
last `.`-separated component, lower-cased; empty extension gives none. -/
def getMediaTypeFromFilename (filename : String) : Option MediaType :=
  let parts := splitOnCharL '.' filename.data
  let ext := String.mk (toLowerL (parts.getLastD []))
  if ext = "" then none
  else if ext ∈ ["jpg", "jpeg", "png", "gif", "webp", "heic", "heif"] then some .image
  else if ext ∈ ["mp4", "mov", "avi", "mkv", "webm", "3gp"] then some .video
  else if ext ∈ ["mp3", "ogg", "opus", "wav", "m4a", "aac"] then some .audio
  else some .document

/-- The `Message` record of `src/src/types.ts`. -/
structure Message where
  id : String
  timestamp : Int
  sender : Option String := none
  content : String
  type : MsgType
  mediaUrl : Option String := none
  mediaType : Option MediaType := none
  mediaFileName : Option String := none
deriving DecidableEq, Repr

/-- The sender split `remainder.match(/^([^:]+):\s*(.*)$/)`: a nonempty
colon-free head, the colon, greedy whitespace, and a rest that `.*$` can
match (i.e. free of line terminators).  Returns the two captures. -/
def senderSplit (remainder : Chars) : Option (Chars × Chars) :=
  let before := remainder.takeWhile (fun c => c ≠ ':')
  if before.length = 0 || before.length = remainder.length then none
  else
    let after := (remainder.drop (before.length + 1)).dropWhile isWsChar
    if after.any (fun c => !isDotChar c) then none
    else some (before, after)

/-! ## The log parser (`parseWhatsAppChat`)

The per-line state machine is embedded exactly; the chunked driving loop of
the source only inserts progress callbacks and UI yields between chunks of
2000 lines and never resets the state, so the fold below is the chunk-size
independent line processing. -/

structure ParseState where
  current : Option Message
  messages : List Message
  senders : List String
deriving Repr

/-- `Set.prototype.add` on the insertion-ordered sender set. -/
def insertSender (s : List String) (x : String) : List String :=
  if x ∈ s then s else s ++ [x]

/-- Blank-line branch: append a newline to the open message's content
(lines 197–202). -/
def processBlank (st : ParseState) : ParseState :=
  match st.current with
  | some m => { st with current := some { m with content := m.content ++ "\n" } }
  | none => st

/-- Close the open message (right-trim its content) and push it
(lines 209–212). -/
def closeCurrent (st : ParseState) : List Message :=
  match st.current with
  | some m => st.messages ++ [{ m with content := trimS m.content }]
  | none => st.messages

/-- Header-line branch: push the previous message, then open a new one
classified by sender presence / media / system catalogues
(lines 207–252). -/
def processHeader (mkTime : DateFields → Int) (fields : DateFields)
    (remainder : Chars) (st : ParseState) : ParseState :=
  let msgs := closeCurrent st
  let ts := mkTime fields
  let mkId := "msg-" ++ toString ts ++ "-" ++ toString msgs.length
  match senderSplit remainder with
  | some (rawSender, rawContent) =>
    let sender := String.mk (trimL rawSender)
    let content := String.mk (trimL rawContent)
    let isMedia := isMediaMessage content.data
    let mediaFileName := if isMedia then extractMediaFileName content.data else none
    let mediaType := mediaFileName.bind getMediaTypeFromFilename
    { current := some
        { id := mkId, timestamp := ts, sender := some sender, content := content,
          type := if isMedia then .media else .text,
          mediaFileName := mediaFileName, mediaType := mediaType },
      messages := msgs,
      senders := insertSender st.senders sender }
  | none =>
    let content := String.mk (trimL remainder)
    { current := some
        { id := mkId, timestamp := ts, content := content,
          type := if isSystemMessage content.data then .system else .text },
      messages := msgs,
      senders := st.senders }

/-- Continuation-line branch (lines 253–258). -/
def processCont (line : Chars) (st : ParseState) : ParseState :=
  match st.current with
  | some m =>
    { st with current := some { m with content := m.content ++ "\n" ++ String.mk line } }
  | none => st

/-- One iteration of the parser loop body (`src/unnamed/part_002`,
lines 193–259). -/
def processLine (mkTime : DateFields → Int) (st : ParseState) (rawLine : Chars) :
    ParseState :=
  let line := trimL rawLine
  if line.length = 0 then processBlank st
  else
    match tryParseHeader line with
    | some (fields, remainder) => processHeader mkTime fields remainder st
    | none => processCont line st

/-- Push the still-open message at end of input (lines 276–279); same
operation as closing on a new header. -/
def finalizeParse (st : ParseState) : List Message :=
  closeCurrent st

structure ParseResult where
  messages : List Message
  chatName : String
  isGroup : Bool
deriving Repr

/-- `file.name.replace(/\.txt$/i, '').replace(/^WhatsApp Chat with /, '')`. -/
def chatNameFromFile (name : String) : String :=
  let n1 :=
    if isSuffixL ".txt".data (toLowerL name.data) then
      String.mk (name.data.take (name.data.length - 4))
    else name
  if isPrefixL "WhatsApp Chat with ".data n1.data then
    String.mk (n1.data.drop 19)
  else n1

/-- `parseWhatsAppChat` on already-loaded text (the `FileReader` plumbing,
progress callbacks and UI yields carry no message state). -/
def parseWhatsAppChat (mkTime : DateFields → Int) (fileName : String)
    (text : String) : ParseResult :=
  let lines := splitOnCharL '\n' text.data
  let st := lines.foldl (processLine mkTime) ⟨none, [], []⟩
  let messages := finalizeParse st
  let isGroup := decide (st.senders.length > 2)
  let guess := chatNameFromFile fileName
  { messages := messages,
    chatName := if guess = "" then "Imported Chat" else guess,
    isGroup := isGroup }

/-! ## Media correlator (`src/unnamed/part_003`, `matchMediaToMessages`)

`File` objects enter this component only through their `name`; the candidate
file is embedded as that name.  The two `Date`-based computations are
abstracted: `mkDateMs y m d h mi s` models
`new Date(y, m, d, h, mi, s).getTime()` (the month argument is passed
0-based exactly as the code does), and `dayOf t` models
`new Date(new Date(t).getFullYear(), new Date(t).getMonth(), new Date(t).getDate()).getTime()`. -/

structure MFile where
  name : String
deriving DecidableEq, Repr

/-- `EXTENSION_TO_TYPE` of the correlator. -/
def mmExtToType : List (String × MediaType) :=
  [("jpg", .image), ("jpeg", .image), ("png", .image), ("gif", .image),
   ("webp", .image), ("heic", .image), ("heif", .image),
   ("mp4", .video), ("mov", .video), ("avi", .video), ("mkv", .video),
   ("webm", .video), ("3gp", .video),
   ("mp3", .audio), ("ogg", .audio), ("opus", .audio), ("wav", .audio),
   ("m4a", .audio), ("aac", .audio),
   ("pdf", .document), ("doc", .document), ("docx", .document),
   ("xls", .document), ("xlsx", .document), ("ppt", .document),
   ("pptx", .document), ("txt", .document)]

/-- `getMediaType` (correlator variant): unknown or empty extension falls
back to `document`. -/
def getMediaTypeMM (filename : String) : MediaType :=
  let parts := splitOnCharL '.' filename.data
  let ext := String.mk (toLowerL (parts.getLastD []))
  (mmExtToType.lookup ext).getD .document

/-- `WHATSAPP_MEDIA_PATTERN = /^(IMG|VID|AUD|PTT|DOC|STK)-(\d{8})-WA(\d+)\./i`:
returns the `(year, month, day)` digits of the `YYYYMMDD` capture. -/
def extractTsWA (l : Chars) : Option (Nat × Nat × Nat) :=
  if ["img", "vid", "aud", "ptt", "doc", "stk"].any
      (fun p => isPrefixCI p.data l) then
    match matchChar '-' (l.drop 3) with
    | some r2 =>
      let ds := r2.take 8
      if ds.length = 8 && ds.all isDigitChar then
        match matchChar '-' (r2.drop 8) with
        | some r4 =>
          if isPrefixCI "wa".data r4 then
            let (run, rest) := spanDigits (r4.drop 2)
            if run.length ≥ 1 then
              match matchChar '.' rest with
              | some _ =>
                some (digitsVal (ds.take 4), digitsVal ((ds.drop 4).take 2),
                  digitsVal (ds.drop 6))
              | none => none
            else none
          else none
        | none => none
      else none
    | none => none
  else none

/-- `WHATSAPP_ALT_PATTERN =
/^WhatsApp\s+(Image|Video|Audio|Document)\s+(\d{4}-\d{2}-\d{2})\s+at\s+(\d{1,2}\.\d{2}\.\d{2})/i`:
returns `(y, mo, d, h, mi, s)`. -/
def extractTsAlt (l : Chars) : Option (Nat × Nat × Nat × Nat × Nat × Nat) := do
  if isPrefixCI "whatsapp".data l then
    let r1 ← matchWsPlus (l.drop 8)
    let wlen ← ["image", "video", "audio", "document"].findSome?
      (fun w => if isPrefixCI w.data r1 then some w.length else none)
    let r2 ← matchWsPlus (r1.drop wlen)
    let (y, r3) ← matchExactDigits 4 r2
    let r4 ← matchChar '-' r3
    let (mo, r5) ← matchExactDigits 2 r4
    let r6 ← matchChar '-' r5
    let (d, r7) ← matchExactDigits 2 r6
    let r8 ← matchWsPlus r7
    if isPrefixCI "at".data r8 then
      let r9 ← matchWsPlus (r8.drop 2)
      let (h, r10) ← matchDigitRun 1 2 r9
      let r11 ← matchChar '.' r10
      let (mi, r12) ← matchExactDigits 2 r11
      let r13 ← matchChar '.' r12
      let (s, _) ← matchExactDigits 2 r13
      pure (y, mo, d, h, mi, s)
    else none
  else none

/-- `extractTimestampFromFilename`; `mkDateMs` receives the month 0-based,
as the code passes it to `new Date`. -/
def extractTimestampFromFilename
    (mkDateMs : Int → Int → Int → Int → Int → Int → Int) (filename : String) :
    Option Int :=
  match extractTsWA filename.data with
  | some (y, mo, d) => some (mkDateMs y ((mo : Int) - 1) d 0 0 0)
  | none =>
    match extractTsAlt filename.data with
    | some (y, mo, d, h, mi, s) => some (mkDateMs y ((mo : Int) - 1) d h mi s)
    | none => none

/-- One value of the `Map` built by `buildMediaLookup` (the `MediaFile`
record of `src/src/types.ts`; the `file` member is kept as its name). -/
structure MediaEntry where
  file : MFile
  mtype : MediaType
  ts : Option Int
  matched : Bool
  messageId : Option String
deriving DecidableEq, Repr

/-- The `Map<string, MediaFile>` keyed by lower-cased filename, as an
insertion-ordered association list (`Map.prototype.set` replaces an
existing key in place). -/
abbrev Lookup := List (String × MediaEntry)

def assocGet : Lookup → String → Option MediaEntry
  | [], _ => none
  | (k, v) :: rest, key => if k = key then some v else assocGet rest key

def assocSet : Lookup → String → MediaEntry → Lookup
  | [], key, v => [(key, v)]
  | (k, w) :: rest, key, v =>
    if k = key then (k, v) :: rest else (k, w) :: assocSet rest key v

/-- `mediaFile.matched = true; mediaFile.messageId = msg.id` (mutation of
the shared entry under its key). -/
def assocMark : Lookup → String → String → Lookup
  | [], _, _ => []
  | (k₀, v) :: rest, key, mid =>
    if k₀ = key then
      (k₀, { v with matched := true, messageId := some mid }) :: assocMark rest key mid
    else (k₀, v) :: assocMark rest key mid

/-- JavaScript truthiness of the optional timestamp
(`m.timestamp` is falsy for `undefined` and for `0`). -/
def tsTruthy (e : MediaEntry) : Bool :=
  match e.ts with
  | some t => decide (t ≠ 0)
  | none => false

/-- One `MediaFile` record as `buildMediaLookup` constructs it (the
`|| undefined` turns a zero timestamp into an absent one). -/
def buildEntry (mkDateMs : Int → Int → Int → Int → Int → Int → Int)
    (f : MFile) : MediaEntry :=
  { file := f, mtype := getMediaTypeMM f.name,
    ts :=
      match extractTimestampFromFilename mkDateMs f.name with
      | some t => if t = 0 then none else some t
      | none => none,
    matched := false, messageId := none }

/-- `buildMediaLookup`. -/
def buildMediaLookup (mkDateMs : Int → Int → Int → Int → Int → Int → Int)
    (mediaFiles : List MFile) : Lookup :=
  mediaFiles.foldl
    (fun lk f => assocSet lk (toLowerS f.name) (buildEntry mkDateMs f)) []

/-- `[^\s<>]`. -/
def isRunChar (c : Char) : Bool := !(isWsChar c || c = '<' || c = '>')

/-- `\s*\(file attached\)` (case-insensitive, unanchored tail). -/
def attachedAfter (l : Chars) : Bool :=
  isPrefixCI "(file attached)".data (l.dropWhile isWsChar)

/-- Extension alternation of `findReferencedFilename`'s first pattern, in
source order. -/
def refExts1 : List String :=
  ["jpg", "jpeg", "png", "gif", "webp", "mp4", "mov", "mp3", "ogg", "opus",
   "pdf", "doc", "docx"]

/-- Extension alternation of `findReferencedFilename`'s second pattern. -/
def refExts2 : List String :=
  ["jpg", "jpeg", "png", "gif", "webp", "mp4", "mov", "mp3", "ogg", "opus", "pdf"]

/-- First alternative of `(ext1|ext2|...)` that matches here and whose
continuation `\s*\(file attached\)` also matches; returns its length. -/
def tryExtsAttached (l : Chars) : Option Nat :=
  refExts1.findSome?
    (fun e => if isPrefixCI e.data l && attachedAfter (l.drop e.length) then
        some e.length
      else none)

/-- One start position of
`([^\s<>]+\.(jpg|...|docx))\s*\(file attached\)` (greedy `+`, so the dot is
sought from the right end of the `[^\s<>]` run). Returns group 1. -/
def tryStartRef (l : Chars) : Option Chars :=
  let runLen := (l.takeWhile isRunChar).length
  (List.range runLen).reverse.findSome? (fun j =>
    if 1 ≤ j && (l.drop j).head? = some '.' then
      match tryExtsAttached (l.drop (j + 1)) with
      | some elen => some (l.take (j + 1 + elen))
      | none => none
    else none)

/-- Leftmost match of the first (unanchored) pattern of
`findReferencedFilename`: the engine advances the start position one
character at a time. -/
def findRefP1 : Chars → Option Chars
  | [] => none
  | c :: rest =>
    match (if isRunChar c then tryStartRef (c :: rest) else none) with
    | some g => some g
    | none => findRefP1 rest

def isAsciiLetter (c : Char) : Bool :=
  ('A' ≤ c && c ≤ 'Z') || ('a' ≤ c && c ≤ 'z')

/-- First alternative of a plain extension alternation matching here. -/
def tryExtsPlain (exts : List String) (l : Chars) : Option Nat :=
  exts.findSome? (fun e => if isPrefixCI e.data l then some e.length else none)

/-- Second (anchored) pattern of `findReferencedFilename`:
`^([A-Z]{3}-\d{8}-WA\d+\.(jpg|...|pdf))/i`; nothing is required after the
extension. -/
def matchRefP2 (l : Chars) : Option Chars :=
  if (l.take 3).length = 3 && (l.take 3).all isAsciiLetter then
    match matchChar '-' (l.drop 3) with
    | some r2 =>
      match matchExactDigits 8 r2 with
      | some (_, r3) =>
        match matchChar '-' r3 with
        | some r4 =>
          if isPrefixCI "wa".data r4 then
            if (spanDigits (r4.drop 2)).1.length ≥ 1 then
              match matchChar '.' (spanDigits (r4.drop 2)).2 with
              | some r6 =>
                match tryExtsPlain refExts2 r6 with
                | some elen =>
                  some (l.take
                    (3 + 1 + 8 + 1 + 2 + (spanDigits (r4.drop 2)).1.length + 1 + elen))
                | none => none
              | none => none
            else none
          else none
        | none => none
      | none => none
    | none => none
  else none

/-- `findReferencedFilename`: the two patterns in source order. -/
def findReferencedFilename (content : Chars) : Option Chars :=
  match findRefP1 content with
  | some g => some g
  | none => matchRefP2 content

/-- JavaScript falsiness of `msg.mediaFileName` (absent or empty). -/
def noFileName (m : Message) : Bool :=
  match m.mediaFileName with
  | none => true
  | some s => s = ""

/-- Strategy 1 (direct filename reference), threading the lookup through
the message array in index order.  The third component is a ghost log of
the claims performed — one `(message index, lookup key)` pair per
`mediaFile.matched = true` assignment; it influences nothing. -/
def strat1Go (lk : Lookup) : List Message → Nat →
    List Message × Lookup × List (Nat × String)
  | [], _ => ([], lk, [])
  | m :: ms, i =>
    if m.type = .media then
      match findReferencedFilename m.content.data with
      | some ref =>
        let key := String.mk (toLowerL ref)
        match assocGet lk key with
        | some e =>
          if e.matched then
            let r := strat1Go lk ms (i + 1)
            (m :: r.1, r.2.1, r.2.2)
          else
            let m' := { m with mediaFileName := some e.file.name,
                               mediaType := some e.mtype }
            let r := strat1Go (assocMark lk key m.id) ms (i + 1)
            (m' :: r.1, r.2.1, (i, key) :: r.2.2)
        | none =>
          let r := strat1Go lk ms (i + 1)
          (m :: r.1, r.2.1, r.2.2)
      | none =>
        let r := strat1Go lk ms (i + 1)
        (m :: r.1, r.2.1, r.2.2)
    else
      let r := strat1Go lk ms (i + 1)
      (m :: r.1, r.2.1, r.2.2)

/-- Sort key `(a.timestamp || 0)`. -/
def tsKey (e : MediaEntry) : Int := e.ts.getD 0

/-- Stable insertion of one element into an ascending run (the element
goes after every earlier element with key ≤ its own). -/
def insertByTs (x : String × MediaEntry) :
    List (String × MediaEntry) → List (String × MediaEntry)
  | [] => [x]
  | y :: ys => if tsKey y.2 ≤ tsKey x.2 then y :: insertByTs x ys else x :: y :: ys

/-- `Array.prototype.sort` with comparator
`(a, b) => (a.timestamp||0) - (b.timestamp||0)`: a stable ascending sort.
A stable sort's output is uniquely determined by the key order, so this
insertion sort is extensionally the engine's sort. -/
def stableSortByTs (l : List (String × MediaEntry)) : List (String × MediaEntry) :=
  l.foldl (fun acc x => insertByTs x acc) []

/-- Strategy 2 (same-day proximity): `pending` is the precomputed list of
still-unbound media messages with their indices; candidate files are
re-filtered against the *current* lookup each step, mirroring the shared
mutable `MediaFile` objects.  Third component: ghost claim log as in
`strat1Go`. -/
def strat2Go (dayOf : Int → Int) (sortedKeys : List String) :
    List (Nat × Message) → List Message → Lookup →
      List Message × Lookup × List (Nat × String)
  | [], msgs, lk => (msgs, lk, [])
  | (i, m) :: rest, msgs, lk =>
    let msgDay := dayOf m.timestamp
    let cands := sortedKeys.filter (fun k =>
      match assocGet lk k with
      | some e => !e.matched && tsTruthy e && decide (dayOf (tsKey e) = msgDay)
      | none => false)
    match cands with
    | [] => strat2Go dayOf sortedKeys rest msgs lk
    | k :: _ =>
      match assocGet lk k with
      | some e =>
        let msgs' := msgs.set i
          { m with mediaFileName := some e.file.name, mediaType := some e.mtype }
        let r := strat2Go dayOf sortedKeys rest msgs' (assocMark lk k m.id)
        (r.1, r.2.1, (i, k) :: r.2.2)
      | none => strat2Go dayOf sortedKeys rest msgs lk

/-- The `MediaMatchResult` record. -/
structure MediaMatchResult where
  matchedMessages : List Message
  unmatchedMedia : List MFile
  matchCount : Nat
  totalMedia : Nat
deriving DecidableEq, Repr

/-- `matchMediaToMessages` with the ghost claim log exposed. -/
def matchMediaFull (mkDateMs : Int → Int → Int → Int → Int → Int → Int)
    (dayOf : Int → Int) (messages : List Message) (mediaFiles : List MFile) :
    MediaMatchResult × List (Nat × String) :=
  if mediaFiles.length = 0 then
    ({ matchedMessages := messages, unmatchedMedia := [], matchCount := 0,
       totalMedia := 0 }, [])
  else
    let lk0 := buildMediaLookup mkDateMs mediaFiles
    let r1 := strat1Go lk0 messages 0
    let sortedKeys :=
      (stableSortByTs ((r1.2.1.filter (fun p => !p.2.matched)).filter
        (fun p => tsTruthy p.2))).map (·.1)
    let pending := r1.1.enum.filter (fun p => p.2.type = .media && noFileName p.2)
    let r2 := strat2Go dayOf sortedKeys pending r1.1 r1.2.1
    ({ matchedMessages := r2.1,
       unmatchedMedia := (r2.2.1.filter (fun p => !p.2.matched)).map (·.2.file),
       matchCount := (r2.2.1.filter (fun p => p.2.matched)).length,
       totalMedia := mediaFiles.length }, r1.2.2 ++ r2.2.2)

/-- `matchMediaToMessages` proper. -/
def matchMediaToMessages (mkDateMs : Int → Int → Int → Int → Int → Int → Int)
    (dayOf : Int → Int) (messages : List Message) (mediaFiles : List MFile) :
    MediaMatchResult :=
  (matchMediaFull mkDateMs dayOf messages mediaFiles).1

/-! ### Observables and invariant vocabulary for the correlator proofs -/

/-- Keys of the lookup, in insertion order. -/
def lkKeys (lk : Lookup) : List String := lk.map Prod.fst

/-- Number of claimed (matched) entries. -/
def countMatched (lk : Lookup) : Nat := (lk.filter (fun p => p.2.matched)).length

/-- The key holds a claimed entry. -/
def markedIn (lk : Lookup) (k : String) : Prop :=
  ∃ e, assocGet lk k = some e ∧ e.matched = true

/-- The key holds a still-unclaimed entry. -/
def unmarkedIn (lk : Lookup) (k : String) : Prop :=
  ∃ e, assocGet lk k = some e ∧ e.matched = false

/-- Structural invariant of `buildMediaLookup`: every entry sits under the
lower-casing of its file name. -/
def EntryInv (lk : Lookup) : Prop :=
  ∀ p ∈ lk, p.1 = toLowerS p.2.file.name

/-- Frame relation of C5: the output message is the input message, or an
input `media` message changed at most in `mediaFileName` / `mediaType`. -/
def FrameOk (a b : Message) : Prop :=
  b = a ∨ (a.type = .media ∧ b.type = a.type ∧ b.id = a.id ∧
    b.timestamp = a.timestamp ∧ b.sender = a.sender ∧ b.content = a.content ∧
    b.mediaUrl = a.mediaUrl)

/-- Combined invariant of one strategy pass starting from lookup `lk`,
message suffix `ms` and base index `i`, about its result `r =
(messages, lookup, claim log)`:  frame preservation, key preservation,
claim counting, one-shot claiming (every logged key was unclaimed before
and keys are logged at most once), claim monotonicity, strictly increasing
logged message indices at or above `i`, entry-key coherence, and that every
logged message really was enriched with a nonempty filename. -/
def Strat1Spec (lk : Lookup) (ms : List Message) (i : Nat)
    (r : List Message × Lookup × List (Nat × String)) : Prop :=
  List.Forall₂ FrameOk ms r.1 ∧
  lkKeys r.2.1 = lkKeys lk ∧
  countMatched r.2.1 = countMatched lk + r.2.2.length ∧
  (∀ pr ∈ r.2.2, unmarkedIn lk pr.2) ∧
  (∀ k, markedIn lk k → markedIn r.2.1 k) ∧
  (r.2.2.map Prod.snd).Nodup ∧
  (∀ pr ∈ r.2.2, i ≤ pr.1) ∧
  (r.2.2.map Prod.fst).Pairwise (· < ·) ∧
  EntryInv r.2.1 ∧
  (∀ pr ∈ r.2.2, ∃ m', r.1.get? (pr.1 - i) = some m' ∧ noFileName m' = false)

/-- Combined invariant of the same-day pass: like `Strat1Spec` but the
frame is stated against the original message list `orig` and the logged
message indices form a sub-sequence of the pending indices. -/
def Strat2Spec (orig : List Message) (pending : List (Nat × Message))
    (lk : Lookup) (r : List Message × Lookup × List (Nat × String)) : Prop :=
  List.Forall₂ FrameOk orig r.1 ∧
  lkKeys r.2.1 = lkKeys lk ∧
  countMatched r.2.1 = countMatched lk + r.2.2.length ∧
  (∀ pr ∈ r.2.2, unmarkedIn lk pr.2) ∧
  (∀ k, markedIn lk k → markedIn r.2.1 k) ∧
  (r.2.2.map Prod.snd).Nodup ∧
  (r.2.2.map Prod.fst).Sublist (pending.map Prod.fst)

/-- A concrete instantiation of the abstracted `Date` conversion (linear
second-resolution encoding), used only to close witness/counterexample
statements; the evaluated paths do not depend on the choice. -/
def encDateMs : Int → Int → Int → Int → Int → Int → Int :=
  fun y mo d h mi s => (((y * 372 + mo * 31 + d) * 24 + h) * 3600 + mi * 60 + s)

/-- Concrete day-flooring companion of `encDateMs`. -/
def encDayOf : Int → Int := fun t => (t / 86400) * 86400

/-- Concrete instantiation of the parser's `mkTime` parameter. -/
def encMkTime : DateFields → Int :=
  fun f => encDateMs f.year ((f.month : Int) - 1) f.day f.hour f.minute f.second

/-! ## Theorems for the claims -/

/-- **C1.** The claim says that a bracketed 12-hour header
`[M/D/YY, H:MM AM/PM]` is normalized per its AM/PM marker (12:15 AM → hour 0,
12:15 PM → hour 12, 11:59 PM → hour 23).  The code contradicts this: the
24-hour pattern `TIMESTAMP_PATTERNS[0]` structurally matches every such line
first (all its trailing parts are optional), so the AM/PM branch of
`parseTimestamp` is unreachable, the clock digits are taken verbatim and the
marker is left in the remainder.  This theorem evaluates the embedded
`tryParseMessageLine` head at the three clock times of the claim:
12:15 AM yields hour 12 (not 0), 11:59 PM yields hour 11 (not 23), and the
remainder still starts with the unconsumed `AM]`/`PM]`. -/
theorem c1_ampm_branch_is_shadowed :
    ((tryParseHeader "[1/2/24, 12:15 AM] Alice: hi".data).map
        (fun p => (p.1.hour, p.1.minute, p.2)) =
      some (12, 15, "AM] Alice: hi".data)) ∧
    ((tryParseHeader "[1/2/24, 12:15 PM] Alice: hi".data).map
        (fun p => (p.1.hour, p.1.minute, p.2)) =
      some (12, 15, "PM] Alice: hi".data)) ∧
    ((tryParseHeader "[1/2/24, 11:59 PM] Alice: hi".data).map
        (fun p => (p.1.hour, p.1.minute, p.2)) =
      some (11, 59, "PM] Alice: hi".data)) := by
  refine ⟨?_, ?_, ?_⟩ <;> rfl

/-- The AM/PM branch of `parseTimestamp` itself implements exactly the
normalization the claim (and the code's own pattern comment) intends, which
is why the shadowing is a code bug rather than a different design. -/
theorem parseTimestampFields_ampm_intent :
    (parseTimestampFields true ⟨1, 2, 24, 12, 15, none, false⟩).hour = 0 ∧
    (parseTimestampFields true ⟨1, 2, 24, 12, 15, none, true⟩).hour = 12 ∧
    (parseTimestampFields true ⟨1, 2, 24, 11, 59, none, true⟩).hour = 23 := by
  refine ⟨rfl, rfl, rfl⟩

/-- **C4.** On the three input lines
`[01/02/24, 09:00:00] Alice: Hello` / `there` /
`[01/02/24, 09:01:05] Bob: <Media omitted>` the parser produces exactly two
messages: the first with content `"Hello\nthere"`, sender `Alice`, kind
text; the second of kind media, sender `Bob`, with no `mediaFileName`
bound.  Holds for every field-to-milliseconds conversion `mkTime`. -/
theorem c4_three_line_example (mkTime : DateFields → Int) :
    (parseWhatsAppChat mkTime "chat.txt"
        "[01/02/24, 09:00:00] Alice: Hello\nthere\n[01/02/24, 09:01:05] Bob: <Media omitted>").messages.map
        (fun m => (m.content, m.sender, m.type, m.mediaFileName)) =
      [("Hello\nthere", some "Alice", MsgType.text, none),
       ("<Media omitted>", some "Bob", MsgType.media, none)] := by
  rfl

/-! ### C9: group inference -/

/-- Senders carried by a parser state: those of already-closed messages plus
the open message's sender. -/
def stateSenders (st : ParseState) : List String :=
  st.messages.filterMap Message.sender ++
    (match st.current with
     | some m => m.sender.toList
     | none => [])

/-- Invariant tying the accumulated sender set to the messages it came
from. -/
def ParseInv (st : ParseState) : Prop :=
  st.senders.Nodup ∧ ∀ x, x ∈ st.senders ↔ x ∈ stateSenders st

theorem mem_insertSender {s : List String} {x y : String} :
    y ∈ insertSender s x ↔ y ∈ s ∨ y = x := by
  unfold insertSender
  split
  · next h => constructor
              · exact fun hy => Or.inl hy
              · rintro (hy | rfl)
                · exact hy
                · exact h
  · simp

theorem nodup_insertSender {s : List String} {x : String} (h : s.Nodup) :
    (insertSender s x).Nodup := by
  unfold insertSender
  split
  · exact h
  · next hx => simpa [List.nodup_append] using ⟨h, hx⟩

theorem filterMap_sender_closeCurrent (st : ParseState) :
    (closeCurrent st).filterMap Message.sender = stateSenders st := by
  unfold closeCurrent stateSenders
  cases st.current with
  | none => simp
  | some m => cases hm : m.sender <;> simp [List.filterMap_append, hm]

theorem processBlank_inv (st : ParseState) (h : ParseInv st) :
    ParseInv (processBlank st) := by
  obtain ⟨hnd, hmem⟩ := h
  unfold processBlank
  cases hc : st.current with
  | none => exact ⟨hnd, hmem⟩
  | some m =>
    refine ⟨hnd, fun x => ?_⟩
    have := hmem x
    simpa [stateSenders, hc] using this

theorem processCont_inv (line : Chars) (st : ParseState) (h : ParseInv st) :
    ParseInv (processCont line st) := by
  obtain ⟨hnd, hmem⟩ := h
  unfold processCont
  cases hc : st.current with
  | none => exact ⟨hnd, hmem⟩
  | some m =>
    refine ⟨hnd, fun x => ?_⟩
    have := hmem x
    simpa [stateSenders, hc] using this

theorem processHeader_inv (mkTime : DateFields → Int) (fields : DateFields)
    (remainder : Chars) (st : ParseState) (h : ParseInv st) :
    ParseInv (processHeader mkTime fields remainder st) := by
  obtain ⟨hnd, hmem⟩ := h
  have hclose := filterMap_sender_closeCurrent st
  unfold processHeader
  cases hs : senderSplit remainder with
  | some q =>
    obtain ⟨rawSender, rawContent⟩ := q
    refine ⟨nodup_insertSender hnd, fun x => ?_⟩
    simp only [stateSenders, hclose, mem_insertSender, hmem x]
    simp [stateSenders, List.mem_append, hclose, or_assoc]
  | none =>
    refine ⟨hnd, fun x => ?_⟩
    simp only [stateSenders, hclose, hmem x]
    simp [stateSenders, hclose]

theorem processLine_inv (mkTime : DateFields → Int) (st : ParseState)
    (line : Chars) (h : ParseInv st) :
    ParseInv (processLine mkTime st line) := by
  simp only [processLine]
  split
  · exact processBlank_inv st h
  · split
    · exact processHeader_inv mkTime _ _ st h
    · exact processCont_inv _ st h

theorem foldl_processLine_inv (mkTime : DateFields → Int)
    (lines : List Chars) (st : ParseState) (h : ParseInv st) :
    ParseInv (lines.foldl (processLine mkTime) st) := by
  induction lines generalizing st with
  | nil => exact h
  | cons l ls ih => exact ih _ (processLine_inv mkTime st l h)

theorem filterMap_sender_finalize (st : ParseState) :
    (finalizeParse st).filterMap Message.sender = stateSenders st := by
  unfold finalizeParse
  exact filterMap_sender_closeCurrent st

/-- **C9.** The `isGroup` flag of the parse result is true exactly when the
number of distinct senders among the sender-bearing parsed messages is
strictly greater than 2 (the accumulated sender set is shown to coincide
with the senders of the produced messages). -/
theorem c9_isGroup_iff_senders (mkTime : DateFields → Int) (fileName text : String) :
    (parseWhatsAppChat mkTime fileName text).isGroup = true ↔
      2 < ((parseWhatsAppChat mkTime fileName text).messages.filterMap
            Message.sender).dedup.length := by
  unfold parseWhatsAppChat
  set st := (splitOnCharL '\n' text.data).foldl (processLine mkTime) ⟨none, [], []⟩ with hst
  have hinv : ParseInv st := by
    refine foldl_processLine_inv mkTime _ _ ⟨List.nodup_nil, fun x => ?_⟩
    simp [stateSenders]
  obtain ⟨hnd, hmem⟩ := hinv
  have hsend : (finalizeParse st).filterMap Message.sender = stateSenders st :=
    filterMap_sender_finalize st
  have hfin : ((finalizeParse st).filterMap Message.sender).toFinset =
      st.senders.toFinset := by
    ext x
    simp only [List.mem_toFinset, hsend]
    exact (hmem x).symm
  have hcard1 : st.senders.toFinset.card = st.senders.length :=
    List.toFinset_card_of_nodup hnd
  have hcard2 : ((finalizeParse st).filterMap Message.sender).toFinset.card =
      ((finalizeParse st).filterMap Message.sender).dedup.length :=
    List.card_toFinset _
  have key : ((finalizeParse st).filterMap Message.sender).dedup.length =
      st.senders.length := by
    rw [← hcard2, hfin, hcard1]
  rw [key]
  simp

/-! ### Lookup and list lemmas for the correlator -/

@[simp]
theorem lkKeys_nil : lkKeys [] = [] := rfl

@[simp]
theorem lkKeys_cons (k₀ : String) (v : MediaEntry) (rest : Lookup) :
    lkKeys ((k₀, v) :: rest) = k₀ :: lkKeys rest := rfl

theorem length_filter_partition (l : List α) (p : α → Bool) :
    (l.filter p).length + (l.filter (fun x => !p x)).length = l.length := by
  induction l with
  | nil => rfl
  | cons a l ih =>
    by_cases h : p a = true <;> simp [List.filter_cons, h, ← ih] <;> omega

theorem assocGet_mem {lk : Lookup} {k : String} {e : MediaEntry}
    (h : assocGet lk k = some e) : (k, e) ∈ lk := by
  induction lk with
  | nil => simp [assocGet] at h
  | cons p rest ih =>
    obtain ⟨k₀, v₀⟩ := p
    by_cases hk : k₀ = k
    · subst hk
      simp [assocGet] at h
      simp [h]
    · simp [assocGet, hk] at h
      exact List.mem_cons_of_mem _ (ih h)

theorem lkKeys_assocMark (lk : Lookup) (k mid : String) :
    lkKeys (assocMark lk k mid) = lkKeys lk := by
  induction lk with
  | nil => rfl
  | cons p rest ih =>
    obtain ⟨k₀, v₀⟩ := p
    by_cases hk : k₀ = k <;> simp [assocMark, lkKeys, hk] <;>
      simp_all [lkKeys]

theorem length_assocMark (lk : Lookup) (k mid : String) :
    (assocMark lk k mid).length = lk.length := by
  induction lk with
  | nil => rfl
  | cons p rest ih =>
    obtain ⟨k₀, v₀⟩ := p
    by_cases hk : k₀ = k <;> simp [assocMark, hk, ih]

theorem assocGet_assocMark_self (lk : Lookup) (k mid : String) :
    assocGet (assocMark lk k mid) k =
      (assocGet lk k).map
        (fun e => { e with matched := true, messageId := some mid }) := by
  induction lk with
  | nil => rfl
  | cons p rest ih =>
    obtain ⟨k₀, v₀⟩ := p
    by_cases hk : k₀ = k
    · subst hk; simp [assocMark, assocGet]
    · simp [assocMark, assocGet, hk, ih]

theorem assocGet_assocMark_ne (lk : Lookup) {k k' : String} (mid : String)
    (h : k' ≠ k) : assocGet (assocMark lk k mid) k' = assocGet lk k' := by
  induction lk with
  | nil => rfl
  | cons p rest ih =>
    obtain ⟨k₀, v₀⟩ := p
    by_cases hk : k₀ = k
    · subst hk
      simp [assocMark, assocGet, Ne.symm h, ih]
    · by_cases hk' : k₀ = k'
      · subst hk'; simp [assocMark, assocGet, hk]
      · simp [assocMark, assocGet, hk, hk', ih]

theorem assocMark_of_not_mem {lk : Lookup} {k : String} (mid : String)
    (h : k ∉ lkKeys lk) : assocMark lk k mid = lk := by
  induction lk with
  | nil => rfl
  | cons p rest ih =>
    obtain ⟨k₀, v₀⟩ := p
    rw [lkKeys_cons] at h
    simp only [List.mem_cons, not_or] at h
    have hne : ¬ k₀ = k := fun hh => h.1 hh.symm
    simp [assocMark, hne, ih h.2]

theorem countMatched_cons (p : String × MediaEntry) (lk : Lookup) :
    countMatched (p :: lk) =
      (if p.2.matched then 1 else 0) + countMatched lk := by
  by_cases h : p.2.matched <;> simp [countMatched, List.filter_cons, h] <;> omega

theorem countMatched_assocMark {lk : Lookup} {k : String} {e : MediaEntry}
    (mid : String) (hnd : (lkKeys lk).Nodup)
    (hget : assocGet lk k = some e) (hm : e.matched = false) :
    countMatched (assocMark lk k mid) = countMatched lk + 1 := by
  induction lk with
  | nil => simp [assocGet] at hget
  | cons p rest ih =>
    obtain ⟨k₀, v₀⟩ := p
    simp only [lkKeys, List.map_cons, List.nodup_cons] at hnd
    by_cases hk : k₀ = k
    · subst hk
      simp [assocGet] at hget
      subst hget
      have hmark : assocMark rest k₀ mid = rest :=
        assocMark_of_not_mem mid (by simpa [lkKeys] using hnd.1)
      simp [assocMark, hmark, countMatched_cons, hm]
      omega
    · simp [assocGet, hk] at hget
      have := ih (by simpa [lkKeys] using hnd.2) hget
      simp [assocMark, hk, countMatched_cons, this]
      omega

theorem mem_assocSet {lk : Lookup} {k : String} {v : MediaEntry}
    {p : String × MediaEntry} (h : p ∈ assocSet lk k v) :
    p ∈ lk ∨ p = (k, v) := by
  induction lk with
  | nil => simpa [assocSet] using h
  | cons q rest ih =>
    obtain ⟨k₀, v₀⟩ := q
    by_cases hk : k₀ = k
    · subst hk
      simp [assocSet] at h
      rcases h with h | h
      · exact Or.inr (by simp [h])
      · exact Or.inl (List.mem_cons_of_mem _ h)
    · simp [assocSet, hk] at h
      rcases h with h | h
      · exact Or.inl (by simp [h])
      · rcases ih h with h' | h'
        · exact Or.inl (List.mem_cons_of_mem _ h')
        · exact Or.inr h'

theorem lkKeys_assocSet_mem {lk : Lookup} {k : String} (v : MediaEntry)
    (h : k ∈ lkKeys lk) : lkKeys (assocSet lk k v) = lkKeys lk := by
  induction lk with
  | nil => simp [lkKeys] at h
  | cons q rest ih =>
    obtain ⟨k₀, v₀⟩ := q
    by_cases hk : k₀ = k
    · subst hk; simp [assocSet]
    · rw [lkKeys_cons, List.mem_cons] at h
      have h' : k ∈ lkKeys rest := by
        rcases h with h | h
        · exact absurd h.symm hk
        · exact h
      simp [assocSet, hk, ih h']

theorem lkKeys_assocSet_not_mem {lk : Lookup} {k : String} (v : MediaEntry)
    (h : k ∉ lkKeys lk) : lkKeys (assocSet lk k v) = lkKeys lk ++ [k] := by
  induction lk with
  | nil => simp [assocSet, lkKeys]
  | cons q rest ih =>
    obtain ⟨k₀, v₀⟩ := q
    rw [lkKeys_cons] at h
    simp only [List.mem_cons, not_or] at h
    have hne : ¬ k₀ = k := fun hh => h.1 hh.symm
    simp [assocSet, hne, ih h.2]

theorem length_assocSet_not_mem {lk : Lookup} {k : String} (v : MediaEntry)
    (h : k ∉ lkKeys lk) : (assocSet lk k v).length = lk.length + 1 := by
  have h1 := lkKeys_assocSet_not_mem v h
  have h2 : (lkKeys (assocSet lk k v)).length = (lkKeys lk ++ [k]).length := by rw [h1]
  simpa [lkKeys] using h2

theorem length_assocSet_mem {lk : Lookup} {k : String} (v : MediaEntry)
    (h : k ∈ lkKeys lk) : (assocSet lk k v).length = lk.length := by
  have h1 := lkKeys_assocSet_mem v h
  have h2 : (lkKeys (assocSet lk k v)).length = (lkKeys lk).length := by rw [h1]
  simpa [lkKeys] using h2

theorem lkKeys_assocSet_nodup {lk : Lookup} {k : String} (v : MediaEntry)
    (h : (lkKeys lk).Nodup) : (lkKeys (assocSet lk k v)).Nodup := by
  by_cases hk : k ∈ lkKeys lk
  · rwa [lkKeys_assocSet_mem v hk]
  · rw [lkKeys_assocSet_not_mem v hk]
    simpa [List.nodup_append] using ⟨h, hk⟩

theorem frameOk_refl (a : Message) : FrameOk a a := Or.inl rfl

theorem forall2_frameOk_refl (l : List Message) : List.Forall₂ FrameOk l l := by
  induction l with
  | nil => constructor
  | cons a l ih => exact List.Forall₂.cons (frameOk_refl a) ih

theorem frameOk_update {a m : Message} (h : FrameOk a m)
    (hm : m.type = .media) (fn : Option String) (mt : Option MediaType) :
    FrameOk a { m with mediaFileName := fn, mediaType := mt } := by
  rcases h with rfl | ⟨h1, h2, h3, h4, h5, h6, h7⟩
  · exact Or.inr ⟨hm, rfl, rfl, rfl, rfl, rfl, rfl⟩
  · exact Or.inr ⟨h1, h2, h3, h4, h5, h6, h7⟩

theorem forall2_get? {R : α → β → Prop} :
    ∀ {l₁ : List α} {l₂ : List β}, List.Forall₂ R l₁ l₂ →
      ∀ {i : Nat} {b : β}, l₂.get? i = some b →
        ∃ a, l₁.get? i = some a ∧ R a b := by
  intro l₁ l₂ h
  induction h with
  | nil => intro i b hb; simp at hb
  | @cons a b l₁ l₂ hR _ ih =>
    intro i c hc
    cases i with
    | zero =>
      simp only [List.get?] at hc
      have hbc := Option.some.inj hc
      exact ⟨a, rfl, hbc ▸ hR⟩
    | succ n =>
      simp only [List.get?] at hc ⊢
      exact ih hc

theorem forall2_set {R : α → β → Prop} :
    ∀ {l₁ : List α} {l₂ : List β}, List.Forall₂ R l₁ l₂ →
      ∀ (i : Nat) (b : β), (∀ a, l₁.get? i = some a → R a b) →
        List.Forall₂ R l₁ (l₂.set i b) := by
  intro l₁ l₂ h
  induction h with
  | nil => intro i b _; simpa using List.Forall₂.nil
  | @cons a b₀ l₁ l₂ hR hrest ih =>
    intro i b hb
    cases i with
    | zero =>
      exact List.Forall₂.cons (hb a rfl) hrest
    | succ n =>
      exact List.Forall₂.cons hR (ih n b (fun a' ha' => hb a' ha'))

theorem forall2_length {R : α → β → Prop} {l₁ : List α} {l₂ : List β}
    (h : List.Forall₂ R l₁ l₂) : l₁.length = l₂.length := by
  induction h with
  | nil => rfl
  | cons _ _ ih => simpa using ih

theorem get?_set_ne' : ∀ (l : List α) (i j : Nat) (b : α), i ≠ j →
    (l.set i b).get? j = l.get? j := by
  intro l
  induction l with
  | nil => intro i j b _; simp
  | cons a l ih =>
    intro i j b hij
    cases i with
    | zero =>
      cases j with
      | zero => exact absurd rfl hij
      | succ m => simp [List.set]
    | succ n =>
      cases j with
      | zero => simp [List.set]
      | succ m =>
        simp only [List.set, List.get?]
        exact ih n m b (fun hh => hij (by rw [hh]))

theorem mem_enumFrom_spec :
    ∀ (l : List α) (n : Nat) (p : Nat × α), p ∈ l.enumFrom n →
      n ≤ p.1 ∧ l.get? (p.1 - n) = some p.2 := by
  intro l
  induction l with
  | nil => intro n p hp; simp [List.enumFrom] at hp
  | cons a l ih =>
    intro n p hp
    simp only [List.enumFrom, List.mem_cons] at hp
    rcases hp with rfl | hp
    · simp
    · obtain ⟨hle, hget⟩ := ih (n + 1) p hp
      refine ⟨by omega, ?_⟩
      have : p.1 - n = (p.1 - (n + 1)) + 1 := by omega
      rw [this]
      simpa using hget

theorem mem_enum_spec (l : List α) (p : Nat × α) (hp : p ∈ l.enum) :
    l.get? p.1 = some p.2 := by
  have := mem_enumFrom_spec l 0 p (by simpa [List.enum] using hp)
  simpa using this.2

/-! ### `buildMediaLookup` lemmas -/

theorem buildFold_keys_nodup (mkDateMs : Int → Int → Int → Int → Int → Int → Int) :
    ∀ (files : List MFile) (lk : Lookup), (lkKeys lk).Nodup →
      (lkKeys (files.foldl
        (fun lk f => assocSet lk (toLowerS f.name) (buildEntry mkDateMs f)) lk)).Nodup := by
  intro files
  induction files with
  | nil => intro lk h; exact h
  | cons f fs ih =>
    intro lk h
    exact ih _ (lkKeys_assocSet_nodup _ h)

theorem buildMediaLookup_keys_nodup
    (mkDateMs : Int → Int → Int → Int → Int → Int → Int) (files : List MFile) :
    (lkKeys (buildMediaLookup mkDateMs files)).Nodup :=
  buildFold_keys_nodup mkDateMs files [] List.nodup_nil

theorem buildFold_length (mkDateMs : Int → Int → Int → Int → Int → Int → Int) :
    ∀ (files : List MFile) (lk : Lookup),
      (lkKeys lk ++ files.map (fun f => toLowerS f.name)).Nodup →
      (files.foldl
        (fun lk f => assocSet lk (toLowerS f.name) (buildEntry mkDateMs f)) lk).length =
        lk.length + files.length := by
  intro files
  induction files with
  | nil => intro lk _; simp
  | cons f fs ih =>
    intro lk h
    have hkey : toLowerS f.name ∉ lkKeys lk := by
      intro hmem
      rw [List.nodup_append] at h
      exact h.2.2 hmem (by simp)
    have hlen := length_assocSet_not_mem (buildEntry mkDateMs f) hkey
    have hkeys := lkKeys_assocSet_not_mem (buildEntry mkDateMs f) hkey
    have hrec : (lkKeys (assocSet lk (toLowerS f.name) (buildEntry mkDateMs f)) ++
        fs.map (fun f => toLowerS f.name)).Nodup := by
      rw [hkeys, List.append_assoc]
      simpa using h
    have := ih (assocSet lk (toLowerS f.name) (buildEntry mkDateMs f)) hrec
    simp only [List.foldl_cons, List.length_cons]
    omega

theorem buildMediaLookup_length
    (mkDateMs : Int → Int → Int → Int → Int → Int → Int) (files : List MFile)
    (h : (files.map (fun f => toLowerS f.name)).Nodup) :
    (buildMediaLookup mkDateMs files).length = files.length := by
  have := buildFold_length mkDateMs files [] (by simpa using h)
  simpa [buildMediaLookup] using this

theorem buildFold_entry (mkDateMs : Int → Int → Int → Int → Int → Int → Int) :
    ∀ (files : List MFile) (lk : Lookup),
      (∀ p ∈ lk, p.1 = toLowerS p.2.file.name ∧ p.2.matched = false) →
      ∀ p ∈ files.foldl
        (fun lk f => assocSet lk (toLowerS f.name) (buildEntry mkDateMs f)) lk,
        p.1 = toLowerS p.2.file.name ∧ p.2.matched = false := by
  intro files
  induction files with
  | nil => intro lk h; exact h
  | cons f fs ih =>
    intro lk h
    refine ih _ (fun p hp => ?_)
    rcases mem_assocSet hp with hp' | hp'
    · exact h p hp'
    · subst hp'; exact ⟨rfl, rfl⟩

theorem buildMediaLookup_entry
    (mkDateMs : Int → Int → Int → Int → Int → Int → Int) (files : List MFile) :
    ∀ p ∈ buildMediaLookup mkDateMs files,
      p.1 = toLowerS p.2.file.name ∧ p.2.matched = false :=
  buildFold_entry mkDateMs files [] (by simp)

theorem countMatched_buildMediaLookup
    (mkDateMs : Int → Int → Int → Int → Int → Int → Int) (files : List MFile) :
    countMatched (buildMediaLookup mkDateMs files) = 0 := by
  unfold countMatched
  rw [List.filter_eq_nil_iff.mpr]
  · rfl
  · intro p hp
    simp [(buildMediaLookup_entry mkDateMs files p hp).2]

theorem entryInv_assocMark {lk : Lookup} (k mid : String) (h : EntryInv lk) :
    EntryInv (assocMark lk k mid) := by
  induction lk with
  | nil => intro p hp; simp [assocMark] at hp
  | cons q rest ih =>
    obtain ⟨k₀, v₀⟩ := q
    have hhead := h (k₀, v₀) (by simp)
    have htail : EntryInv rest := fun p hp => h p (List.mem_cons_of_mem _ hp)
    intro p hp
    by_cases hk : k₀ = k
    · simp only [assocMark, if_pos hk, List.mem_cons] at hp
      rcases hp with rfl | hp
      · exact hhead
      · exact ih htail p hp
    · simp only [assocMark, if_neg hk, List.mem_cons] at hp
      rcases hp with rfl | hp
      · exact hhead
      · exact ih htail p hp

theorem markedIn_assocMark {lk : Lookup} {k' : String} (k mid : String)
    (h : markedIn lk k') : markedIn (assocMark lk k mid) k' := by
  obtain ⟨e, hget, hm⟩ := h
  by_cases hk : k' = k
  · subst hk
    rw [markedIn, assocGet_assocMark_self, hget]
    exact ⟨_, rfl, rfl⟩
  · rw [markedIn, assocGet_assocMark_ne lk mid hk]
    exact ⟨e, hget, hm⟩

theorem markedIn_assocMark_self {lk : Lookup} {k : String} (mid : String)
    (h : ∃ e, assocGet lk k = some e) : markedIn (assocMark lk k mid) k := by
  obtain ⟨e, hget⟩ := h
  rw [markedIn, assocGet_assocMark_self, hget]
  exact ⟨_, rfl, rfl⟩

theorem unmarkedIn_of_assocMark {lk : Lookup} {k' k mid : String}
    (h : unmarkedIn (assocMark lk k mid) k') : unmarkedIn lk k' ∧ k' ≠ k := by
  obtain ⟨e, hget, hm⟩ := h
  by_cases hk : k' = k
  · subst hk
    rw [assocGet_assocMark_self] at hget
    cases hg : assocGet lk k' with
    | none =>
      rw [hg, Option.map_none'] at hget
      exact Option.noConfusion hget
    | some e₀ =>
      rw [hg, Option.map_some'] at hget
      cases hget
      simp at hm
  · rw [assocGet_assocMark_ne lk mid hk] at hget
    exact ⟨⟨e, hget, hm⟩, hk⟩

theorem not_marked_and_unmarked {lk : Lookup} {k : String}
    (h1 : markedIn lk k) (h2 : unmarkedIn lk k) : False := by
  obtain ⟨e1, hg1, hm1⟩ := h1
  obtain ⟨e2, hg2, hm2⟩ := h2
  rw [hg1] at hg2
  cases hg2
  rw [hm1] at hm2
  exact Bool.noConfusion hm2

/-! ### Nonemptiness of extracted filenames -/

theorem length_takeWhile_le' (p : Char → Bool) (l : Chars) :
    (l.takeWhile p).length ≤ l.length := by
  induction l with
  | nil => simp
  | cons a l ih =>
    rw [List.takeWhile_cons]
    split <;> simp <;> omega

theorem tryStartRef_ne_nil {l : Chars} {g : Chars} (h : tryStartRef l = some g) :
    g ≠ [] := by
  unfold tryStartRef at h
  obtain ⟨j, hjmem, hj⟩ := List.exists_of_findSome?_eq_some h
  rw [List.mem_reverse, List.mem_range] at hjmem
  have hrun : (l.takeWhile isRunChar).length ≤ l.length :=
    length_takeWhile_le' _ _
  split at hj
  · cases hext : tryExtsAttached (l.drop (j + 1)) with
    | none =>
      rw [hext] at hj
      exact Option.noConfusion hj
    | some elen =>
      rw [hext] at hj
      cases hj
      intro hg
      rcases List.take_eq_nil_iff.mp hg with hn | hl
      · omega
      · subst hl
        simp at hjmem
  · exact Option.noConfusion hj

theorem matchRefP2_ne_nil {l : Chars} {g : Chars} (h : matchRefP2 l = some g) :
    g ≠ [] := by
  by_cases hl : l = []
  · subst hl
    exact Option.noConfusion ((show matchRefP2 [] = none from rfl) ▸ h)
  · simp only [matchRefP2] at h
    repeat' split at h
    all_goals
      first
      | exact Option.noConfusion h
      | (cases h
         intro hg
         rcases List.take_eq_nil_iff.mp hg with hn | hnil
         · omega
         · exact hl hnil)

theorem findRefP1_ne_nil : ∀ {l g : Chars}, findRefP1 l = some g → g ≠ [] := by
  intro l
  induction l with
  | nil => intro g h; simp [findRefP1] at h
  | cons c rest ih =>
    intro g h
    simp only [findRefP1] at h
    by_cases hc : isRunChar c
    · rw [if_pos hc] at h
      cases hts : tryStartRef (c :: rest) with
      | some g' =>
        rw [hts] at h
        cases h
        exact tryStartRef_ne_nil hts
      | none =>
        rw [hts] at h
        exact ih h
    · rw [if_neg hc] at h
      exact ih h

theorem findReferencedFilename_ne_nil {c g : Chars}
    (h : findReferencedFilename c = some g) : g ≠ [] := by
  unfold findReferencedFilename at h
  cases hp : findRefP1 c with
  | some g' =>
    rw [hp] at h
    cases h
    exact findRefP1_ne_nil hp
  | none =>
    rw [hp] at h
    exact matchRefP2_ne_nil h

/-! ### Strategy 1 specification -/

theorem strat1_skip_step {lk : Lookup} {ms : List Message} {i : Nat}
    {r' : List Message × Lookup × List (Nat × String)} (m : Message)
    (h : Strat1Spec lk ms (i + 1) r') :
    Strat1Spec lk (m :: ms) i (m :: r'.1, r'.2.1, r'.2.2) := by
  obtain ⟨h1, h2, h3, h4, h5, h6, h7, h8, h9, h10⟩ := h
  refine ⟨List.Forall₂.cons (frameOk_refl m) h1, h2, h3, h4, h5, h6, ?_, h8, h9, ?_⟩
  · intro pr hpr
    have := h7 pr hpr
    omega
  · intro pr hpr
    obtain ⟨m', hm', hnf⟩ := h10 pr hpr
    have hge := h7 pr hpr
    refine ⟨m', ?_, hnf⟩
    have heq : pr.1 - i = (pr.1 - (i + 1)) + 1 := by omega
    rw [heq]
    simpa using hm'

theorem strat1_bind_step {lk : Lookup} {ms : List Message} {i : Nat}
    {r' : List Message × Lookup × List (Nat × String)} {m : Message}
    {key : String} {e : MediaEntry}
    (hmedia : m.type = .media) (hkeyne : key ≠ "")
    (hnd : (lkKeys lk).Nodup) (hEI : EntryInv lk)
    (hget : assocGet lk key = some e) (hunm : e.matched = false)
    (h : Strat1Spec (assocMark lk key m.id) ms (i + 1) r') :
    Strat1Spec lk (m :: ms) i
      ({ m with mediaFileName := some e.file.name, mediaType := some e.mtype } :: r'.1,
       r'.2.1, (i, key) :: r'.2.2) := by
  obtain ⟨h1, h2, h3, h4, h5, h6, h7, h8, h9, h10⟩ := h
  have hkey_eq : key = toLowerS e.file.name := hEI (key, e) (assocGet_mem hget)
  have hname : e.file.name ≠ "" := by
    intro hcon
    apply hkeyne
    rw [hkey_eq, hcon]
    rfl
  have hcm : countMatched (assocMark lk key m.id) = countMatched lk + 1 :=
    countMatched_assocMark m.id hnd hget hunm
  refine ⟨List.Forall₂.cons (frameOk_update (frameOk_refl m) hmedia _ _) h1,
    h2.trans (lkKeys_assocMark lk key m.id), ?_, ?_, ?_, ?_, ?_, ?_, h9, ?_⟩
  · rw [h3, hcm]
    simp only [List.length_cons]
    omega
  · intro pr hpr
    rcases List.mem_cons.mp hpr with rfl | hpr
    · exact ⟨e, hget, hunm⟩
    · exact (unmarkedIn_of_assocMark (h4 pr hpr)).1
  · intro k hk
    exact h5 k (markedIn_assocMark key m.id hk)
  · rw [List.map_cons]
    refine List.nodup_cons.mpr ⟨?_, h6⟩
    intro hmem
    obtain ⟨pr, hpr, hpr2⟩ := List.mem_map.mp hmem
    have hum : unmarkedIn (assocMark lk key m.id) pr.2 := h4 pr hpr
    rw [hpr2] at hum
    exact not_marked_and_unmarked (markedIn_assocMark_self m.id ⟨e, hget⟩) hum
  · intro pr hpr
    rcases List.mem_cons.mp hpr with rfl | hpr
    · exact Nat.le_refl i
    · have := h7 pr hpr
      omega
  · rw [List.map_cons]
    refine List.pairwise_cons.mpr ⟨?_, h8⟩
    intro j hj
    obtain ⟨pr, hpr, hpr1⟩ := List.mem_map.mp hj
    have := h7 pr hpr
    omega
  · intro pr hpr
    rcases List.mem_cons.mp hpr with rfl | hpr
    · exact ⟨{ m with mediaFileName := some e.file.name, mediaType := some e.mtype },
        by simp, by simp [noFileName, hname]⟩
    · obtain ⟨m', hm', hnf⟩ := h10 pr hpr
      have hge := h7 pr hpr
      refine ⟨m', ?_, hnf⟩
      have heq : pr.1 - i = (pr.1 - (i + 1)) + 1 := by omega
      rw [heq]
      simpa using hm'

theorem strat1Go_spec :
    ∀ (ms : List Message) (lk : Lookup) (i : Nat),
      (lkKeys lk).Nodup → EntryInv lk →
      Strat1Spec lk ms i (strat1Go lk ms i) := by
  intro ms
  induction ms with
  | nil =>
    intro lk i hnd hEI
    simp only [strat1Go]
    exact ⟨List.Forall₂.nil, rfl, by simp, by simp, fun k hk => hk, by simp,
      by simp, by simp, hEI, by simp⟩
  | cons m ms ih =>
    intro lk i hnd hEI
    simp only [strat1Go]
    split
    · next hmedia =>
      split
      · next ref href =>
        split
        · next e hget =>
          split
          · next hm =>
            exact strat1_skip_step m (ih lk (i + 1) hnd hEI)
          · next hm =>
            have hrefne := findReferencedFilename_ne_nil href
            have hkeyne : String.mk (toLowerL ref) ≠ "" := by
              intro hcon
              apply hrefne
              have hdata : toLowerL ref = [] := by
                have := congrArg String.data hcon
                simpa using this
              simpa [toLowerL] using hdata
            have hnd' : (lkKeys (assocMark lk (String.mk (toLowerL ref)) m.id)).Nodup := by
              rw [lkKeys_assocMark]; exact hnd
            have hEI' := entryInv_assocMark (String.mk (toLowerL ref)) m.id hEI
            exact strat1_bind_step hmedia hkeyne hnd hEI hget
              (by simpa using hm) (ih _ (i + 1) hnd' hEI')
        · next hget =>
          exact strat1_skip_step m (ih lk (i + 1) hnd hEI)
      · next href =>
        exact strat1_skip_step m (ih lk (i + 1) hnd hEI)
    · next hmedia =>
      exact strat1_skip_step m (ih lk (i + 1) hnd hEI)

/-! ### Strategy 2 specification -/

theorem strat2_skip_step {orig : List Message} {rest : List (Nat × Message)}
    {lk : Lookup} {r : List Message × Lookup × List (Nat × String)}
    (p : Nat × Message) (h : Strat2Spec orig rest lk r) :
    Strat2Spec orig (p :: rest) lk r := by
  obtain ⟨h1, h2, h3, h4, h5, h6, h7⟩ := h
  exact ⟨h1, h2, h3, h4, h5, h6, h7.trans (List.sublist_cons_self _ _)⟩

theorem strat2_bind_step {orig : List Message} {rest : List (Nat × Message)}
    {lk : Lookup} {r' : List Message × Lookup × List (Nat × String)}
    {i : Nat} {m : Message} {k : String} {e : MediaEntry}
    (hnd : (lkKeys lk).Nodup)
    (hget : assocGet lk k = some e) (hunm : e.matched = false)
    (h : Strat2Spec orig rest (assocMark lk k m.id) r') :
    Strat2Spec orig ((i, m) :: rest) lk (r'.1, r'.2.1, (i, k) :: r'.2.2) := by
  obtain ⟨h1, h2, h3, h4, h5, h6, h7⟩ := h
  have hcm : countMatched (assocMark lk k m.id) = countMatched lk + 1 :=
    countMatched_assocMark m.id hnd hget hunm
  refine ⟨h1, h2.trans (lkKeys_assocMark lk k m.id), ?_, ?_, ?_, ?_, ?_⟩
  · rw [h3, hcm]
    simp only [List.length_cons]
    omega
  · intro pr hpr
    rcases List.mem_cons.mp hpr with rfl | hpr
    · exact ⟨e, hget, hunm⟩
    · exact (unmarkedIn_of_assocMark (h4 pr hpr)).1
  · intro k' hk'
    exact h5 k' (markedIn_assocMark k m.id hk')
  · rw [List.map_cons]
    refine List.nodup_cons.mpr ⟨?_, h6⟩
    intro hmem
    obtain ⟨pr, hpr, hpr2⟩ := List.mem_map.mp hmem
    have hum : unmarkedIn (assocMark lk k m.id) pr.2 := h4 pr hpr
    rw [hpr2] at hum
    exact not_marked_and_unmarked (markedIn_assocMark_self m.id ⟨e, hget⟩) hum
  · rw [List.map_cons, List.map_cons]
    exact h7.cons₂ i

theorem strat2Go_spec (dayOf : Int → Int) (sortedKeys : List String) :
    ∀ (pending : List (Nat × Message)) (msgs : List Message) (lk : Lookup)
      (orig : List Message),
      (lkKeys lk).Nodup →
      (∀ pr ∈ pending, msgs.get? pr.1 = some pr.2 ∧ pr.2.type = .media) →
      (pending.map Prod.fst).Nodup →
      List.Forall₂ FrameOk orig msgs →
      Strat2Spec orig pending lk (strat2Go dayOf sortedKeys pending msgs lk) := by
  intro pending
  induction pending with
  | nil =>
    intro msgs lk orig hnd _ _ hfor
    simp only [strat2Go]
    exact ⟨hfor, rfl, by simp, by simp, fun k hk => hk, by simp, by simp⟩
  | cons p rest ih =>
    obtain ⟨i, m⟩ := p
    intro msgs lk orig hnd hpend hpnd hfor
    have hpnd_rest : (rest.map Prod.fst).Nodup := by
      rw [List.map_cons] at hpnd
      exact (List.nodup_cons.mp hpnd).2
    have hi_not : i ∉ rest.map Prod.fst := by
      rw [List.map_cons] at hpnd
      exact (List.nodup_cons.mp hpnd).1
    have hpend_rest : ∀ pr ∈ rest, msgs.get? pr.1 = some pr.2 ∧ pr.2.type = .media :=
      fun pr hpr => hpend pr (List.mem_cons_of_mem _ hpr)
    simp only [strat2Go]
    split
    · next hcands =>
      exact strat2_skip_step (i, m) (ih msgs lk orig hnd hpend_rest hpnd_rest hfor)
    · next k rest' hcands =>
      split
      · next e hget =>
        -- the chosen key's filter predicate gives an unclaimed entry
        have hkmem : k ∈ sortedKeys.filter (fun k =>
            match assocGet lk k with
            | some e => !e.matched && tsTruthy e &&
                decide (dayOf (tsKey e) = dayOf m.timestamp)
            | none => false) := by
          rw [hcands]
          exact List.mem_cons_self _ _
        have hpred := (List.mem_filter.mp hkmem).2
        rw [hget] at hpred
        simp only [Bool.and_eq_true, Bool.not_eq_true'] at hpred
        have hunm : e.matched = false := hpred.1.1
        -- recursive invariants on the set/marked state
        have hm_get : msgs.get? i = some m := (hpend (i, m) (by simp)).1
        have hm_media : m.type = .media := (hpend (i, m) (by simp)).2
        have hnd' : (lkKeys (assocMark lk k m.id)).Nodup := by
          rw [lkKeys_assocMark]; exact hnd
        have hpend' : ∀ pr ∈ rest,
            (msgs.set i { m with mediaFileName := some e.file.name, mediaType := some e.mtype }).get? pr.1 = some pr.2 ∧
              pr.2.type = .media := by
          intro pr hpr
          have hne : i ≠ pr.1 := by
            intro hcon
            exact hi_not (hcon ▸ List.mem_map_of_mem Prod.fst hpr)
          rw [get?_set_ne' msgs i pr.1 _ hne]
          exact hpend_rest pr hpr
        have hfor' : List.Forall₂ FrameOk orig
            (msgs.set i { m with mediaFileName := some e.file.name, mediaType := some e.mtype }) := by
          refine forall2_set hfor i _ (fun a ha => ?_)
          obtain ⟨a', ha', hR⟩ := forall2_get? hfor hm_get
          rw [ha'] at ha
          cases ha
          exact frameOk_update hR hm_media _ _
        exact strat2_bind_step hnd hget hunm
          (ih _ _ orig hnd' hpend' hpnd_rest hfor')
      · next hget =>
        exact strat2_skip_step (i, m) (ih msgs lk orig hnd hpend_rest hpnd_rest hfor)

/-! ### C10: empty candidate list -/

/-- **C10.** With an empty candidate-file list the correlator is the
identity on the messages: the input list is returned unmodified,
`unmatchedMedia` is empty and both counts are 0.  Holds for every `Date`
model. -/
theorem c10_empty_candidates (mkDateMs : Int → Int → Int → Int → Int → Int → Int)
    (dayOf : Int → Int) (messages : List Message) :
    matchMediaToMessages mkDateMs dayOf messages [] =
      { matchedMessages := messages, unmatchedMedia := [], matchCount := 0,
        totalMedia := 0 } := rfl

/-! ### C2: counting and claim-uniqueness -/

/-- **C2 (counterexample).** The claimed identity
`matchCount + unmatchedMedia.length == totalMedia` fails when two candidate
files carry the same (case-insensitively compared) name: the lookup is
keyed by lower-cased name, so duplicates collapse.  Two files named
`a.jpg` with no messages give `matchCount = 0`,
`unmatchedMedia.length = 1`, `totalMedia = 2`. -/
theorem c2_duplicate_names_break_count :
    ¬ ((matchMediaToMessages encDateMs encDayOf []
          [⟨"a.jpg"⟩, ⟨"a.jpg"⟩]).matchCount +
        (matchMediaToMessages encDateMs encDayOf []
          [⟨"a.jpg"⟩, ⟨"a.jpg"⟩]).unmatchedMedia.length =
        (matchMediaToMessages encDateMs encDayOf []
          [⟨"a.jpg"⟩, ⟨"a.jpg"⟩]).totalMedia) := by
  decide

end ChatExportViewer
